import Mathlib

/-!
Shallow embedding of the core of the `thehub-actor` scraper:

* `src/src/api.ts` — listing client (`fetchJobsPage` request construction,
  `fetchAllJobsForRegion` pagination, `fetchAllJobs` multi-region merge and
  deduplication, `buildImageUrl`).
* `src/src/nuxtExtractor.ts` — embedded-state extractor (`extractJobFromHtml`).
* `src/src/routes.ts` — the `job-detail` handler's normalization step.
* `src/src/schemas.ts` + `src/test/helpers/schema-validator.ts` — output schema
  validation.

Network I/O is modelled by passing the remote API as a function from page
numbers to responses; JavaScript's `eval` of the embedded payload is modelled
by an abstract evaluation outcome attached to each script (the real payload is
arbitrary third-party JavaScript and cannot itself be embedded); the wall clock
(`new Date().toISOString()`) is modelled as an explicit `now` argument.
-/

set_option maxHeartbeats 1000000

namespace TheHub

/-! ## Data model (from `src/src/types.ts`) -/

/-- Region codes recognized by the scraper (`COUNTRY_CODES` in
`src/src/types.ts`): the country codes plus the `EU` and `REMOTE`
pseudo-regions. -/
inductive RegionCode where
  | FI
  | SE
  | DK
  | NO
  | IS
  | EU
  | REMOTE
deriving DecidableEq

/-- String form of a region code, as sent in the `countryCode` query
parameter. -/
def RegionCode.code : RegionCode → String
  | .FI => "FI"
  | .SE => "SE"
  | .DK => "DK"
  | .NO => "NO"
  | .IS => "IS"
  | .EU => "EU"
  | .REMOTE => "REMOTE"

/-- A listing summary (`JobListingBasic` in `src/src/types.ts`).  Only the
fields the aggregation logic inspects are modelled: deduplication reads `id`;
`title` stands in for the remaining payload fields so that two occurrences of
the same id can carry different data. -/
structure JobListingBasic where
  id : String
  title : String
deriving DecidableEq

/-- One listing-API response (`JobsApiResponse` in `src/src/types.ts`).
`docs` is `jobs.docs`, `pages` is `jobs.pages`, and `featuredDocs` models the
optional chain `featuredJobs?.docs` read by the client.  The numeric fields
(`total`, `limit`, `page`) are never read by the code under verification and
are omitted. -/
structure JobsApiResponse where
  docs : List JobListingBasic
  pages : Nat
  featuredDocs : Option (List JobListingBasic)

/-- A remote listing API for one region: the response returned for each page
number.  This models the network behind `fetchJobsPage(region, page)`. -/
abbrev RegionApi := Nat → JobsApiResponse

/-! ## Listing client (from `src/src/api.ts`) -/

/-- Query parameters of the request built by `fetchJobsPage` (src/src/api.ts,
lines 16–27): `isRemote=true` for the `REMOTE` pseudo-region, otherwise
`countryCode=<region>`; then `page` and the fixed `sorting` mode. -/
def fetchJobsPageParams (region : RegionCode) (page : Nat) : List (String × String) :=
  (if region = RegionCode.REMOTE then
    [("isRemote", "true")]
  else
    [("countryCode", region.code)]) ++
  [("page", toString page), ("sorting", "mostPopular")]

/-- Keys of a query-parameter list. -/
def paramKeys (ps : List (String × String)) : List String :=
  ps.map (·.1)

/-- Page numbers of the pages fetched after page 1:
`Array.from({ length: totalPages - 1 }, (_, i) => i + 2)` in
`fetchAllJobsForRegion`.  (For `totalPages = 0` JavaScript's
`Array.from({length:-1})` is `[]`, matching truncated subtraction.) -/
def remainingPageNumbers (totalPages : Nat) : List Nat :=
  (List.range (totalPages - 1)).map (· + 2)

/-- The accumulation loop over the already-fetched remaining pages in
`fetchAllJobsForRegion` (src/src/api.ts, lines 81–94): push each page's docs,
and `break` as soon as the accumulated length has reached a positive limit. -/
def accumulatePages (limit : Nat) : List JobListingBasic → List (List JobListingBasic) → List JobListingBasic
  | acc, [] => acc
  | acc, docs :: rest =>
    if 0 < limit ∧ limit ≤ (acc ++ docs).length then acc ++ docs
    else accumulatePages limit (acc ++ docs) rest

/-- The pagination driver `fetchAllJobsForRegion(region, limit)`
(src/src/api.ts, lines 45–99): fetch page 1, push its docs and (if present)
its featured docs; stop if there is a single page or a positive limit is
already met; otherwise fetch pages `2..totalPages` and accumulate them with
the limit cutoff. -/
def fetchAllJobsForRegion (api : RegionApi) (limit : Nat) : List JobListingBasic :=
  let first := api 1
  let totalPages := first.pages
  let allJobs := first.docs ++ first.featuredDocs.getD []
  if totalPages = 1 ∨ (0 < limit ∧ limit ≤ allJobs.length) then allJobs
  else
    accumulatePages limit allJobs
      ((remainingPageNumbers totalPages).map fun p => (api p).docs)

/-- Observable events of one run of `fetchAllJobsForRegion`, in program
order: issuing the HTTP request for a page, and appending a block of
summaries to the accumulator. -/
inductive FetchEvent where
  | request (page : Nat)
  | append (docs : List JobListingBasic)
deriving DecidableEq

/-- Trace of the accumulation loop: one `append` per processed page, stopping
(as the code's `break` does) once a positive limit is reached. -/
def regionTraceLoop (limit : Nat) : Nat → List (List JobListingBasic) → List FetchEvent
  | _, [] => []
  | count, docs :: rest =>
    FetchEvent.append docs ::
      (if 0 < limit ∧ limit ≤ count + docs.length then []
       else regionTraceLoop limit (count + docs.length) rest)

/-- Full event trace of `fetchAllJobsForRegion(region, limit)`: request page 1,
append its docs and featured docs; then — unless the early return fires —
dispatch the requests for pages `2..totalPages` (the code's single
`Promise.all`) followed by the accumulation appends. -/
def regionTrace (api : RegionApi) (limit : Nat) : List FetchEvent :=
  let first := api 1
  let feat := first.featuredDocs.getD []
  let baseCount := first.docs.length + feat.length
  let base := [FetchEvent.request 1, FetchEvent.append first.docs, FetchEvent.append feat]
  if first.pages = 1 ∨ (0 < limit ∧ limit ≤ baseCount) then base
  else
    base ++ (remainingPageNumbers first.pages).map FetchEvent.request ++
      regionTraceLoop limit baseCount
        ((remainingPageNumbers first.pages).map fun p => (api p).docs)

/-- Number of summaries accumulated by a list of events. -/
def accumulatedCount : List FetchEvent → Nat
  | [] => 0
  | FetchEvent.request _ :: rest => accumulatedCount rest
  | FetchEvent.append docs :: rest => docs.length + accumulatedCount rest

/-- Checks, walking a trace left to right with the running accumulated count,
that every `request` event happens while the count is still strictly below the
limit. -/
def requestsBelowLimit (limit : Nat) : Nat → List FetchEvent → Bool
  | _, [] => true
  | count, FetchEvent.request _ :: rest =>
    decide (count < limit) && requestsBelowLimit limit count rest
  | count, FetchEvent.append docs :: rest =>
    requestsBelowLimit limit (count + docs.length) rest

/-- The pages requested in a trace, in dispatch order. -/
def requestsOf (events : List FetchEvent) : List Nat :=
  events.filterMap fun e =>
    match e with
    | FetchEvent.request p => some p
    | FetchEvent.append _ => none

/-! ## Multi-region aggregator (`fetchAllJobs` in `src/src/api.ts`) -/

/-- Inner loop of the merge in `fetchAllJobs` (src/src/api.ts, lines 115–125):
walk one region's summaries; skip ids already in `seenJobIds`; otherwise
record the id, push the job, and `break` once a positive limit is reached. -/
def mergeRegionJobs (limit : Nat) : List String → List JobListingBasic → List JobListingBasic →
    List String × List JobListingBasic
  | seen, acc, [] => (seen, acc)
  | seen, acc, job :: rest =>
    if seen.contains job.id then mergeRegionJobs limit seen acc rest
    else if 0 < limit ∧ limit ≤ (acc ++ [job]).length then (job.id :: seen, acc ++ [job])
    else mergeRegionJobs limit (job.id :: seen) (acc ++ [job]) rest

/-- Outer loop of the merge in `fetchAllJobs` (src/src/api.ts, lines 114–131):
one inner pass per region result, breaking between regions once a positive
limit is reached. -/
def mergeRegionResults (limit : Nat) : List String → List JobListingBasic →
    List (List JobListingBasic) → List JobListingBasic
  | _, acc, [] => acc
  | seen, acc, jobs :: rest =>
    if 0 < limit ∧ limit ≤ (mergeRegionJobs limit seen acc jobs).2.length
    then (mergeRegionJobs limit seen acc jobs).2
    else mergeRegionResults limit (mergeRegionJobs limit seen acc jobs).1
      (mergeRegionJobs limit seen acc jobs).2 rest

/-- The aggregator `fetchAllJobs(regions, limit)` (src/src/api.ts, lines
106–136): fetch every region fully (each per-region call passes limit `0`),
then merge in region order with cross-region deduplication and the limit
cutoff.  `api` gives each region's listing endpoint.  `Promise.all` returns
the per-region results in `regions` order, so the merge order is independent
of the completion order of the concurrent fetches. -/
def fetchAllJobs (regions : List RegionCode) (api : RegionCode → RegionApi) (limit : Nat) :
    List JobListingBasic :=
  mergeRegionResults limit [] []
    (regions.map fun r => fetchAllJobsForRegion (api r) 0)

/-- The deterministic region-then-page-then-in-page merge order: all regions'
full listing results, concatenated in region-iteration order (each region's
result is already in page order, then in-page order). -/
def mergeOrder (regions : List RegionCode) (api : RegionCode → RegionApi) : List JobListingBasic :=
  (regions.map fun r => fetchAllJobsForRegion (api r) 0).flatten

/-- Distinct-count helper: the number of distinct ids in a list that are not
yet in `seen`. -/
def countNew (seen : List String) : List String → Nat
  | [] => 0
  | i :: rest =>
    if seen.contains i then countNew seen rest
    else 1 + countNew (i :: seen) rest

/-- Ids of a list of summaries. -/
def idsOf (jobs : List JobListingBasic) : List String :=
  jobs.map (·.id)

/-- Number of unique job identifiers available across the regions' listings. -/
def uniqueIdCount (regions : List RegionCode) (api : RegionCode → RegionApi) : Nat :=
  (idsOf (mergeOrder regions api)).dedup.length

/-- The image URL composer `buildImageUrl(path, width, height)`
(src/src/api.ts, lines 141–143); the source declares default arguments
`width = 300, height = 300`, which callers rely on. -/
def buildImageUrl (path : String) (width : Nat) (height : Nat) : String :=
  "https://thehub-io.imgix.net" ++ path ++ "?fit=crop&w=" ++ toString width ++
    "&h=" ++ toString height ++ "&auto=format&q=60"

/-! ## Embedded-state extractor (from `src/src/nuxtExtractor.ts`)

`extractJobFromHtml` loads the HTML, walks the `<script>` elements, and on the
first one whose content contains `window.__NUXT__=` runs JavaScript `eval` on
the content with that prefix stripped, inside a `try`/`catch`; it then reads
`nuxtData?.state?.jobs?.job`.  The payload is arbitrary third-party
JavaScript, so its evaluation is modelled by its observable outcome: it either
throws, never returns, or produces a value whose `state.jobs.job` path either
resolves to a job or does not. -/

/-- Full job record extracted from the embedded state (`JobFull` in
`src/src/types.ts`); modelled by the fields the `job-detail` handler reads. -/
structure LogoImage where
  path : String
deriving DecidableEq

/-- Views counters (`views` in `src/src/types.ts`). -/
structure Views where
  week : Int
  total : Int
deriving DecidableEq

/-- Salary range (`salaryRange` in `src/src/types.ts`). -/
structure SalaryRange where
  min : Int
  max : Int
deriving DecidableEq

/-- Location (`location` in `src/src/types.ts`). -/
structure JobLocation where
  country : String
  locality : String
  address : String
deriving DecidableEq

/-- Company details from the embedded state (`CompanyFull` in
`src/src/types.ts`), restricted to the fields the handler copies. -/
structure CompanyFull where
  id : String
  key : String
  name : String
  website : String
  numberOfEmployees : String
  founded : String
  whatWeDo : Option String
  logoImage : Option LogoImage
deriving DecidableEq

/-- Full job details from the embedded state (`JobFull` in
`src/src/types.ts`), restricted to the fields the handler copies.  `link` is
optional in the source type and may also be the empty string; `publishedAt`
is a required string that may be empty. -/
structure JobFull where
  id : String
  key : String
  title : String
  description : String
  salary : String
  salaryRange : Option SalaryRange
  equity : String
  jobRole : String
  jobPositionTypes : List String
  location : JobLocation
  isRemote : Bool
  link : Option String
  createdAt : String
  publishedAt : String
  expirationDate : Option String
  views : Views
  company : CompanyFull
deriving DecidableEq

/-- Observable outcome of `eval` on one script's payload: the evaluation
throws, never terminates, or yields the `__NUXT__` value, of which the code
only inspects the optional-chain path `state?.jobs?.job` (`jobAtPath`). -/
inductive EvalOutcome where
  | throws
  | diverges
  | value (jobAtPath : Option JobFull)
deriving DecidableEq

/-- One `<script>` element of the document, as seen by the extractor:
whether its content contains the `window.__NUXT__=` marker, and the outcome
of evaluating the content with the marker stripped. -/
structure NuxtScript where
  hasNuxtAssignment : Bool
  payload : EvalOutcome
deriving DecidableEq

/-- An HTML document, reduced to what the extractor reads: its script
elements in document order. -/
abbrev HtmlDoc := List NuxtScript

/-- Result of running `extractJobFromHtml` on a document: either the call
never returns (the evaluated payload diverges — the source has no timeout
around `eval`), or it returns its `JobFull | null` value. -/
inductive ExtractRun where
  | hangs
  | returns (result : Option JobFull)
deriving DecidableEq

/-- The extractor `extractJobFromHtml(html)` (src/src/nuxtExtractor.ts, lines
19–50): take the first script containing the `window.__NUXT__=` marker; if
none exists, log a warning and return `null`; otherwise `eval` the stripped
content — if it throws, the `catch` logs and returns `null`; if it yields a
value, return `state.jobs.job` when present and `null` otherwise.  A
diverging payload makes the call hang: `eval` is invoked with no time budget. -/
def extractJobFromHtml (html : HtmlDoc) : ExtractRun :=
  match html.find? (·.hasNuxtAssignment) with
  | none => ExtractRun.returns none
  | some s =>
    match s.payload with
    | EvalOutcome.diverges => ExtractRun.hangs
    | EvalOutcome.throws => ExtractRun.returns none
    | EvalOutcome.value jobAtPath =>
      match jobAtPath with
      | some job => ExtractRun.returns (some job)
      | none => ExtractRun.returns none

/-- Whether a run of the extractor terminates. -/
def ExtractRun.terminates : ExtractRun → Bool
  | ExtractRun.hangs => false
  | ExtractRun.returns _ => true

/-- The failure reasons named by the specification for the extraction stage
(`ExtractionError` discriminators).  The source code has no corresponding
type: it returns `null` on every failure. -/
inductive ExtractionReason where
  | NoEmbeddedScript
  | MalformedPayload
  | EvaluationTimeout
  | MissingJobPath
deriving DecidableEq

/-! ## Record normalization (the `job-detail` handler in `src/src/routes.ts`) -/

/-- Company part of the output record (`JobOutput.company` in
`src/src/types.ts`). -/
structure JobOutputCompany where
  id : String
  key : String
  name : String
  website : String
  numberOfEmployees : String
  founded : String
  whatWeDo : Option String
  logoUrl : Option String
deriving DecidableEq

/-- The output record pushed to the dataset (`JobOutput` in
`src/src/types.ts`). -/
structure JobOutput where
  id : String
  key : String
  url : String
  title : String
  description : String
  company : JobOutputCompany
  location : JobLocation
  isRemote : Bool
  salary : String
  salaryRange : Option SalaryRange
  equity : String
  jobRole : String
  jobPositionTypes : List String
  views : Views
  link : Option String
  createdAt : String
  publishedAt : String
  expirationDate : Option String
  scrapedAt : String
deriving DecidableEq

/-- The id-to-label mapping `JOB_POSITION_TYPE_MAP` (src/src/types.ts). -/
def JOB_POSITION_TYPE_MAP : List (String × String) :=
  [("5b8e46b3853f039706b6ea70", "Full-time"),
   ("5b8e46b3853f039706b6ea71", "Part-time"),
   ("5b8e46b3853f039706b6ea72", "Student"),
   ("5b8e46b3853f039706b6ea73", "Internship"),
   ("5b8e46b3853f039706b6ea74", "Cofounder"),
   ("5b8e46b3853f039706b6ea75", "Freelance"),
   ("62e28180d8cca695ee60c98e", "Advisory board")]

/-- Position-type translation `translateJobPositionTypes(ids)`
(src/src/types.ts): `JOB_POSITION_TYPE_MAP[id] || id` — map through the
table, unrecognized ids pass through unchanged. -/
def translateJobPositionTypes (ids : List String) : List String :=
  ids.map fun id => (JOB_POSITION_TYPE_MAP.lookup id).getD id

/-- The normalization step of the `job-detail` handler (src/src/routes.ts,
lines 229–264): build the `JobOutput` from the extracted job, the request
URL and the current instant (`new Date().toISOString()`, passed here as
`now`).  `logoUrl` is built only when `job.company?.logoImage?.path` is
truthy (an empty path string is falsy in JavaScript); `link` uses
`job.link || undefined`, turning an empty string into "absent";
`publishedAt` uses `job.publishedAt || job.createdAt`. -/
def buildJobOutput (job : JobFull) (url : String) (now : String) : JobOutput :=
  let logoUrl : Option String :=
    match job.company.logoImage with
    | some img => if img.path = "" then none else some (buildImageUrl img.path 300 300)
    | none => none
  { id := job.id
    key := job.key
    url := url
    title := job.title
    description := job.description
    company :=
      { id := job.company.id
        key := job.company.key
        name := job.company.name
        website := job.company.website
        numberOfEmployees := job.company.numberOfEmployees
        founded := job.company.founded
        whatWeDo := job.company.whatWeDo
        logoUrl := logoUrl }
    location := job.location
    isRemote := job.isRemote
    salary := job.salary
    salaryRange := job.salaryRange
    equity := job.equity
    jobRole := job.jobRole
    jobPositionTypes := translateJobPositionTypes job.jobPositionTypes
    views := job.views
    link :=
      match job.link with
      | some s => if s = "" then none else some s
      | none => none
    createdAt := job.createdAt
    publishedAt := if job.publishedAt = "" then job.createdAt else job.publishedAt
    expirationDate := job.expirationDate
    scrapedAt := now }

/-! ## Output-schema validation
(`JobOutputSchema` in `src/src/schemas.ts`, run through
`validateJobOutputSchema` in `src/test/helpers/schema-validator.ts`)

The schema shapes live in the repository; the parse engine is the `zod`
dependency.  Its `z.object(...).safeParse` semantics — validate every declared
field against the candidate, accumulate one issue list across all fields with
each issue carrying its field path — is modelled here directly; the primitive
string-format predicates (`.url()`, `.datetime()`, `.date()`) live inside
`zod` and are modelled from the spec. -/

/-- An untyped candidate value, as handed to `safeParse` (`data: unknown`). -/
inductive JVal where
  | jnull
  | jbool (b : Bool)
  | jnum (n : Int)
  | jstr (s : String)
  | jarr (elems : List JVal)
  | jobj (fields : List (String × JVal))

/-- One validation issue: the path of the offending field and a message. -/
structure Issue where
  path : List String
  message : String
deriving DecidableEq

/-- Field lookup on a candidate object. -/
def lookupField (fields : List (String × JVal)) (name : String) : Option JVal :=
  (fields.find? fun f => f.1 == name).map (·.2)

/-- Check for `z.string().min(minLen)`: requires presence, a string value and
the minimum length. -/
def zString (minLen : Nat) : Option JVal → List Issue
  | none => [⟨[], "Required"⟩]
  | some (JVal.jstr s) =>
    if s.length < minLen then [⟨[], "String must contain at least 1 character(s)"⟩] else []
  | some _ => [⟨[], "Expected string"⟩]

/-- Check for `z.boolean()`. -/
def zBoolean : Option JVal → List Issue
  | none => [⟨[], "Required"⟩]
  | some (JVal.jbool _) => []
  | some _ => [⟨[], "Expected boolean"⟩]

/-- Check for `z.number()`. -/
def zNumber : Option JVal → List Issue
  | none => [⟨[], "Required"⟩]
  | some (JVal.jnum _) => []
  | some _ => [⟨[], "Expected number"⟩]

/-- Check for `z.array(z.string())`. -/
def zStringArray : Option JVal → List Issue
  | none => [⟨[], "Required"⟩]
  | some (JVal.jarr elems) =>
    if elems.all fun e => match e with | JVal.jstr _ => true | _ => false then []
    else [⟨[], "Expected array of strings"⟩]
  | some _ => [⟨[], "Expected array"⟩]

/-- Check for `.optional()`: a missing field is accepted, a present one is
checked by the base schema. -/
def zOptional (base : Option JVal → List Issue) : Option JVal → List Issue
  | none => []
  | some v => base (some v)

/-- Modelled from the spec: the URL well-formedness test behind
`z.string().url().refine(http/https)` lives in the `zod` dependency; the spec
requires "syntactically valid absolute URLs restricted to the http/https
schemes", modelled as an `http://` or `https://` prefix. -/
def isHttpUrl (s : String) : Bool :=
  List.isPrefixOf "http://".toList s.toList || List.isPrefixOf "https://".toList s.toList

/-- Check for the schema's `url` field: `z.string().url().refine(...)`. -/
def zUrl : Option JVal → List Issue
  | none => [⟨[], "Required"⟩]
  | some (JVal.jstr s) => if isHttpUrl s then [] else [⟨[], "Invalid url"⟩]
  | some _ => [⟨[], "Expected string"⟩]

/-- Modelled from the spec: the ISO-8601 instant test behind
`z.string().datetime()` lives in the `zod` dependency; date-time fields "must
be full ISO-8601 instants", modelled as containing a `T` separator and ending
in `Z`. -/
def isIsoInstant (s : String) : Bool :=
  s.toList.contains 'T' && (s.toList.getLast? == some 'Z')

/-- Check for `z.string().datetime()`. -/
def zDatetime : Option JVal → List Issue
  | none => [⟨[], "Required"⟩]
  | some (JVal.jstr s) => if isIsoInstant s then [] else [⟨[], "Invalid datetime"⟩]
  | some _ => [⟨[], "Expected string"⟩]

/-- Modelled from the spec: the `YYYY-MM-DD` test behind `z.string().date()`
lives in the `zod` dependency; modelled as ten characters with dashes at
positions 4 and 7. -/
def isPlainDate (s : String) : Bool :=
  s.toList.length == 10 && (s.toList.get? 4 == some '-') && (s.toList.get? 7 == some '-')

/-- Check for `z.string().date()`. -/
def zDate : Option JVal → List Issue
  | none => [⟨[], "Required"⟩]
  | some (JVal.jstr s) => if isPlainDate s then [] else [⟨[], "Invalid date"⟩]
  | some _ => [⟨[], "Expected string"⟩]

/-- A named field check, as one entry of a `z.object({...})` shape. -/
abbrev FieldCheck := String × (Option JVal → List Issue)

/-- Run every field check of a `z.object` shape against a candidate object,
prefixing each issue's path with the field name, and concatenate all issue
lists (zod validates every field and accumulates, it does not stop at the
first failing field). -/
def runObjectChecks (checks : List FieldCheck) (fields : List (String × JVal)) : List Issue :=
  checks.flatMap fun c =>
    (c.2 (lookupField fields c.1)).map fun iss => ⟨c.1 :: iss.path, iss.message⟩

/-- Lift a `z.object` shape to a check on a value. -/
def zObjectWith (checks : List FieldCheck) : Option JVal → List Issue
  | none => [⟨[], "Required"⟩]
  | some (JVal.jobj fields) => runObjectChecks checks fields
  | some _ => [⟨[], "Expected object"⟩]

/-- Shape of `CompanyOutputSchema` (src/src/schemas.ts, lines 10–19). -/
def companyOutputChecks : List FieldCheck :=
  [("id", zString 1), ("key", zString 1), ("name", zString 1),
   ("website", zString 0), ("numberOfEmployees", zString 0), ("founded", zString 0),
   ("whatWeDo", zOptional (zString 0)), ("logoUrl", zOptional (zString 0))]

/-- Shape of `LocationSchema` (src/src/schemas.ts, lines 24–28). -/
def locationChecks : List FieldCheck :=
  [("country", zOptional (zString 0)), ("locality", zOptional (zString 0)),
   ("address", zOptional (zString 0))]

/-- Shape of `ViewsSchema` (src/src/schemas.ts, lines 33–36). -/
def viewsChecks : List FieldCheck :=
  [("week", zNumber), ("total", zNumber)]

/-- Shape of `SalaryRangeSchema` (src/src/schemas.ts, lines 41–44). -/
def salaryRangeChecks : List FieldCheck :=
  [("min", zNumber), ("max", zNumber)]

/-- Shape of `JobOutputSchema` (src/src/schemas.ts, lines 49–74). -/
def jobOutputChecks : List FieldCheck :=
  [("id", zString 1), ("key", zString 1), ("url", zUrl), ("title", zString 1),
   ("description", zString 1), ("company", zObjectWith companyOutputChecks),
   ("location", zOptional (zObjectWith locationChecks)), ("isRemote", zBoolean),
   ("salary", zString 1), ("salaryRange", zOptional (zObjectWith salaryRangeChecks)),
   ("equity", zString 1), ("jobRole", zString 1), ("jobPositionTypes", zStringArray),
   ("views", zObjectWith viewsChecks), ("link", zOptional (zString 0)),
   ("createdAt", zDatetime), ("publishedAt", zDatetime),
   ("expirationDate", zOptional zDate), ("scrapedAt", zDatetime)]

/-- Issues produced by `JobOutputSchema.safeParse(data)`. -/
def jobOutputSchemaIssues (data : JVal) : List Issue :=
  zObjectWith jobOutputChecks (some data)

/-- Result shape of the test helper (`ValidationResult` in
`src/test/helpers/schema-validator.ts`). -/
structure ValidationResult where
  isValid : Bool
  errors : List String
deriving DecidableEq

/-- The helper `validateJobOutputSchema(data)`
(src/test/helpers/schema-validator.ts, lines 19–32): run `safeParse` and, on
failure, render every issue as `"<path.joined.with.dots>: <message>"` (just
the message when the path is empty). -/
def validateJobOutputSchema (data : JVal) : ValidationResult :=
  let issues := jobOutputSchemaIssues data
  if issues.isEmpty then ⟨true, []⟩
  else
    ⟨false, issues.map fun iss =>
      let path := String.intercalate "." iss.path
      if path = "" then iss.message else path ++ ": " ++ iss.message⟩

/-! ## Concrete fixtures for witnesses and counterexamples -/

/-- A summary with a numbered id. -/
def mkJob (i : Nat) : JobListingBasic :=
  { id := "job-" ++ toString i, title := "title-" ++ toString i }

/-- Example region API: three pages of five, five and two summaries, two
featured summaries on page 1. -/
def exApi : RegionApi := fun p =>
  if p = 1 then
    { docs := [mkJob 1, mkJob 2, mkJob 3, mkJob 4, mkJob 5], pages := 3,
      featuredDocs := some [mkJob 6, mkJob 7] }
  else if p = 2 then
    { docs := [mkJob 8, mkJob 9, mkJob 10, mkJob 11, mkJob 12], pages := 3,
      featuredDocs := none }
  else
    { docs := [mkJob 13, mkJob 14], pages := 3, featuredDocs := none }

/-- Example single-page region API sharing `job-1` with `exApi`, but with a
different payload (`title`) attached to the shared id. -/
def exApiB : RegionApi := fun _ =>
  { docs := [{ id := "job-1", title := "other-title" }, mkJob 20], pages := 1,
    featuredDocs := none }

/-- A two-region API table: `FI ↦ exApi`, everything else `↦ exApiB`. -/
def exApiTable : RegionCode → RegionApi := fun r =>
  if r = RegionCode.FI then exApi else exApiB

/-- Document whose only script carries the marker and a diverging payload. -/
def divergingHtml : HtmlDoc :=
  [{ hasNuxtAssignment := true, payload := EvalOutcome.diverges }]

/-- Document with no script carrying the `window.__NUXT__=` marker. -/
def noScriptHtml : HtmlDoc :=
  [{ hasNuxtAssignment := false, payload := EvalOutcome.throws }]

/-- Document whose payload evaluates but lacks `state.jobs.job`. -/
def missingPathHtml : HtmlDoc :=
  [{ hasNuxtAssignment := true, payload := EvalOutcome.value none }]

/-- Document whose payload throws on evaluation. -/
def throwingHtml : HtmlDoc :=
  [{ hasNuxtAssignment := true, payload := EvalOutcome.throws }]

/-! ## Theorems -/

/-- C1, counterexample: the claim asserts that a payload running past the
time budget makes extraction terminate within the budget with an
`EvaluationTimeout` report.  On the document whose marker script's payload
diverges, `extractJobFromHtml` never terminates at all: the source wraps
`eval` in no sandbox and no timeout. -/
theorem c1_counterexample :
    extractJobFromHtml divergingHtml = ExtractRun.hangs ∧
    (extractJobFromHtml divergingHtml).terminates = false := by
  constructor <;> rfl

/-- C1 (amended): the embedded-state evaluation step invokes `eval` directly,
with no sandbox and no time budget; on every input HTML whose selected
payload runs forever, `extractJobFromHtml` never returns, and no
`EvaluationTimeout` (or any other) failure is reported. -/
theorem c1_eval_unbounded (html : HtmlDoc) (s : NuxtScript)
    (hfind : html.find? (·.hasNuxtAssignment) = some s)
    (hdiv : s.payload = EvalOutcome.diverges) :
    extractJobFromHtml html = ExtractRun.hangs := by
  simp only [extractJobFromHtml, hfind, hdiv]

/-- Witness for C1 (amended) at the concrete diverging document. -/
theorem c1_eval_unbounded_witness :
    extractJobFromHtml divergingHtml = ExtractRun.hangs :=
  c1_eval_unbounded divergingHtml
    { hasNuxtAssignment := true, payload := EvalOutcome.diverges } rfl rfl

/-- C2, counterexample: the claim asserts the failure result carries a reason
discriminator separating the four failure modes.  The code returns the same
value `null` for a document with no marker script and for a document whose
payload lacks the job path, so no reading of the result can assign
`NoEmbeddedScript` to the former and `MissingJobPath` to the latter. -/
theorem c2_counterexample :
    ¬ ∃ reasonOf : ExtractRun → ExtractionReason,
        reasonOf (extractJobFromHtml noScriptHtml) = ExtractionReason.NoEmbeddedScript ∧
        reasonOf (extractJobFromHtml missingPathHtml) = ExtractionReason.MissingJobPath := by
  rintro ⟨f, h1, h2⟩
  have e : extractJobFromHtml noScriptHtml = extractJobFromHtml missingPathHtml := rfl
  rw [e, h2] at h1
  exact ExtractionReason.noConfusion h1

/-- C2 (amended): on every input on which extraction does not produce a job
record and terminates, `extractJobFromHtml` returns plain `null` — the same
value for the no-marker-script, evaluation-throws and missing-job-path
failure modes; the modes are distinguished only in log messages, there is no
timeout mode, and no reason discriminator is carried in the return value. -/
theorem c2_failures_return_null (html : HtmlDoc) :
    (html.find? (·.hasNuxtAssignment) = none →
      extractJobFromHtml html = ExtractRun.returns none) ∧
    (∀ s, html.find? (·.hasNuxtAssignment) = some s →
      (s.payload = EvalOutcome.throws → extractJobFromHtml html = ExtractRun.returns none) ∧
      (s.payload = EvalOutcome.value none → extractJobFromHtml html = ExtractRun.returns none)) := by
  refine ⟨fun hnone => ?_, fun s hs => ⟨fun hthrow => ?_, fun hmiss => ?_⟩⟩
  · simp only [extractJobFromHtml, hnone]
  · simp only [extractJobFromHtml, hs, hthrow]
  · simp only [extractJobFromHtml, hs, hmiss]

/-- Witness for C2 (amended) at the three concrete failing documents. -/
theorem c2_failures_return_null_witness :
    extractJobFromHtml noScriptHtml = ExtractRun.returns none ∧
    extractJobFromHtml throwingHtml = ExtractRun.returns none ∧
    extractJobFromHtml missingPathHtml = ExtractRun.returns none :=
  ⟨(c2_failures_return_null noScriptHtml).1 rfl,
   ((c2_failures_return_null throwingHtml).2
      { hasNuxtAssignment := true, payload := EvalOutcome.throws } rfl).1 rfl,
   ((c2_failures_return_null missingPathHtml).2
      { hasNuxtAssignment := true, payload := EvalOutcome.value none } rfl).2 rfl⟩

/-- C7: a `fetchJobsPage` request for the `REMOTE` pseudo-region carries
`isRemote=true` and no `countryCode` parameter; a request for any other
recognized region carries `countryCode=<region>` and no `isRemote`
parameter. -/
theorem c7_remote_region_encoding (region : RegionCode) (page : Nat) :
    (region = RegionCode.REMOTE →
      ("isRemote", "true") ∈ fetchJobsPageParams region page ∧
        "countryCode" ∉ paramKeys (fetchJobsPageParams region page)) ∧
    (region ≠ RegionCode.REMOTE →
      ("countryCode", region.code) ∈ fetchJobsPageParams region page ∧
        "isRemote" ∉ paramKeys (fetchJobsPageParams region page)) := by
  constructor
  · rintro rfl
    constructor <;> simp [fetchJobsPageParams, paramKeys]
  · intro h
    constructor <;> simp [fetchJobsPageParams, paramKeys, h]

/-- Witness for C7 at the `REMOTE` pseudo-region and at `FI`. -/
theorem c7_remote_region_encoding_witness :
    (("isRemote", "true") ∈ fetchJobsPageParams RegionCode.REMOTE 1 ∧
      "countryCode" ∉ paramKeys (fetchJobsPageParams RegionCode.REMOTE 1)) ∧
    (("countryCode", RegionCode.FI.code) ∈ fetchJobsPageParams RegionCode.FI 2 ∧
      "isRemote" ∉ paramKeys (fetchJobsPageParams RegionCode.FI 2)) :=
  ⟨(c7_remote_region_encoding RegionCode.REMOTE 1).1 rfl,
   (c7_remote_region_encoding RegionCode.FI 2).2 (by decide)⟩

/-- The composed image URL for the default 300×300 crop, with the path
spliced into the fixed template. -/
theorem buildImageUrl_default (path : String) :
    buildImageUrl path 300 300 =
      "https://thehub-io.imgix.net" ++ path ++ "?fit=crop&w=300&h=300&auto=format&q=60" := by
  unfold buildImageUrl
  have h : toString (300 : Nat) = "300" := rfl
  rw [h]
  apply String.ext
  simp only [String.data_append, List.append_assoc]
  congr 2

/-- C8: the `job-detail` handler's normalization keeps a non-empty
`publishedAt`, falls back to `createdAt` for an empty one, drops an empty
`link` entirely rather than emitting an empty string, and composes
`company.logoUrl` from a present logo path via the fixed image-service
template with width 300, height 300 and quality 60. -/
theorem c8_normalization_derivations (job : JobFull) (url now : String) :
    (job.publishedAt ≠ "" →
      (buildJobOutput job url now).publishedAt = job.publishedAt) ∧
    (job.publishedAt = "" →
      (buildJobOutput job url now).publishedAt = job.createdAt) ∧
    (job.link = some "" → (buildJobOutput job url now).link = none) ∧
    (∀ p, job.company.logoImage = some { path := p } → p ≠ "" →
      (buildJobOutput job url now).company.logoUrl =
        some ("https://thehub-io.imgix.net" ++ p ++
          "?fit=crop&w=300&h=300&auto=format&q=60")) := by
  refine ⟨fun h => ?_, fun h => ?_, fun h => ?_, fun p hp hpe => ?_⟩
  · simp [buildJobOutput, h]
  · simp [buildJobOutput, h]
  · simp [buildJobOutput, h]
  · simp [buildJobOutput, hp, hpe, buildImageUrl_default]

/-- A concrete extracted record with empty `publishedAt`, empty `link` and a
logo path, for the C8 witness. -/
def exJobFull : JobFull :=
  { id := "job-a", key := "job-a-key", title := "Engineer",
    description := "Build things.", salary := "Competitive", salaryRange := none,
    equity := "To be offered", jobRole := "engineering",
    jobPositionTypes := ["5b8e46b3853f039706b6ea70"],
    location := { country := "Denmark", locality := "Copenhagen", address := "Street 1" },
    isRemote := false, link := some "", createdAt := "2024-01-02T03:04:05.000Z",
    publishedAt := "", expirationDate := none, views := { week := 1, total := 2 },
    company :=
      { id := "c-1", key := "c-key", name := "Acme", website := "https://acme.test",
        numberOfEmployees := "1-10", founded := "2020", whatWeDo := none,
        logoImage := some { path := "/files/x.jpg" } } }

/-- The same record with a non-empty `publishedAt`. -/
def exJobFullPublished : JobFull :=
  { exJobFull with publishedAt := "2024-02-03T04:05:06.000Z" }

/-- Witness for C8 at concrete extracted records. -/
theorem c8_normalization_derivations_witness :
    (buildJobOutput exJobFullPublished "u" "n").publishedAt = exJobFullPublished.publishedAt ∧
    (buildJobOutput exJobFull "u" "n").publishedAt = exJobFull.createdAt ∧
    (buildJobOutput exJobFull "u" "n").link = none ∧
    (buildJobOutput exJobFull "u" "n").company.logoUrl =
      some "https://thehub-io.imgix.net/files/x.jpg?fit=crop&w=300&h=300&auto=format&q=60" := by
  refine ⟨(c8_normalization_derivations exJobFullPublished "u" "n").1 (by decide), ?_, ?_, ?_⟩
  · exact (c8_normalization_derivations exJobFull "u" "n").2.1 rfl
  · exact (c8_normalization_derivations exJobFull "u" "n").2.2.1 rfl
  · rw [(c8_normalization_derivations exJobFull "u" "n").2.2.2 "/files/x.jpg" rfl (by decide)]
    decide

/-- The accumulation loop of `fetchAllJobsForRegion` emits only `append`
events, so every request check in a trace suffix made of loop events
passes. -/
theorem requestsBelowLimit_regionTraceLoop (limit : Nat) (pages : List (List JobListingBasic)) :
    ∀ count loopCount, requestsBelowLimit limit count (regionTraceLoop limit loopCount pages) = true := by
  induction pages with
  | nil => intro count loopCount; rfl
  | cons d rest ih =>
    intro count loopCount
    show requestsBelowLimit limit (count + d.length) _ = true
    split
    · rfl
    · exact ih (count + d.length) (loopCount + d.length)

/-- Walking a block of request events leaves the accumulated count unchanged
and passes every check as long as the count is below the limit. -/
theorem requestsBelowLimit_request_block (limit count : Nat) (h : count < limit)
    (ps : List Nat) (tail : List FetchEvent) :
    requestsBelowLimit limit count (ps.map FetchEvent.request ++ tail) =
      requestsBelowLimit limit count tail := by
  induction ps with
  | nil => rfl
  | cons p rest ih =>
    show (decide (count < limit) &&
        requestsBelowLimit limit count (List.map FetchEvent.request rest ++ tail)) =
      requestsBelowLimit limit count tail
    rw [decide_eq_true h, Bool.true_and, ih]

/-- C3: in the event trace of `fetchAllJobsForRegion(region, L)` with `L > 0`,
every page request is dispatched while the accumulated summary count is still
strictly below `L`; equivalently, once the count reaches `L`, no further page
request is issued — reaching the limit gates request dispatch itself (the
page-1 check returns before the pages `2..N` requests are issued), not merely
the accumulation of results. -/
theorem c3_limit_stops_request_dispatch (api : RegionApi) (limit : Nat) (hL : 0 < limit) :
    requestsBelowLimit limit 0 (regionTrace api limit) = true := by
  unfold regionTrace
  by_cases hg : (api 1).pages = 1 ∨
      (0 < limit ∧ limit ≤ (api 1).docs.length + ((api 1).featuredDocs.getD []).length)
  · rw [if_pos hg]
    show (decide (0 < limit) && _) = true
    rw [decide_eq_true hL, Bool.true_and]
    rfl
  · rw [if_neg hg]
    have hlt : (api 1).docs.length + ((api 1).featuredDocs.getD []).length < limit := by
      rcases Nat.lt_or_ge ((api 1).docs.length + ((api 1).featuredDocs.getD []).length) limit with h | h
      · exact h
      · exact absurd (Or.inr ⟨hL, h⟩) hg
    show (decide (0 < limit) && _) = true
    rw [decide_eq_true hL, Bool.true_and]
    show requestsBelowLimit limit (0 + (api 1).docs.length) _ = true
    show requestsBelowLimit limit (0 + (api 1).docs.length + ((api 1).featuredDocs.getD []).length)
      ((remainingPageNumbers (api 1).pages).map FetchEvent.request ++ _) = true
    rw [Nat.zero_add] at *
    rw [requestsBelowLimit_request_block limit _ hlt]
    exact requestsBelowLimit_regionTraceLoop limit _ _ _

/-- Witness for C3 at the concrete three-page region API and limit 3. -/
theorem c3_limit_stops_request_dispatch_witness :
    0 < 3 ∧ requestsBelowLimit 3 0 (regionTrace exApi 3) = true :=
  ⟨by decide, c3_limit_stops_request_dispatch exApi 3 (by decide)⟩

/-- With no limit, the accumulation loop appends every remaining page. -/
theorem accumulatePages_zero (pages : List (List JobListingBasic)) :
    ∀ acc, accumulatePages 0 acc pages = acc ++ pages.flatten := by
  induction pages with
  | nil => intro acc; simp [accumulatePages]
  | cons d rest ih =>
    intro acc
    show (if 0 < 0 ∧ (0 : Nat) ≤ (acc ++ d).length then acc ++ d
      else accumulatePages 0 (acc ++ d) rest) = _
    rw [if_neg (by simp), ih]
    simp

/-- The accumulation loop of the trace contains no request events. -/
theorem requestsOf_regionTraceLoop (limit : Nat) (pages : List (List JobListingBasic)) :
    ∀ count, requestsOf (regionTraceLoop limit count pages) = [] := by
  induction pages with
  | nil => intro count; rfl
  | cons d rest ih =>
    intro count
    show requestsOf (FetchEvent.append d ::
      (if 0 < limit ∧ limit ≤ count + d.length then []
       else regionTraceLoop limit (count + d.length) rest)) = []
    unfold requestsOf
    rw [List.filterMap_cons_none rfl]
    split
    · rfl
    · exact ih (count + d.length)

/-- The pages `2..totalPages` as a `range'`. -/
theorem remainingPageNumbers_eq_range' (totalPages : Nat) :
    remainingPageNumbers totalPages = List.range' 2 (totalPages - 1) := by
  unfold remainingPageNumbers
  rw [List.range'_eq_map_range]
  exact List.map_congr_left fun x _ => Nat.add_comm x 2

/-- C6: with no limit, for a region whose page-1 response reports
`pages = N ≥ 1`, the run issues exactly the requests `1, 2, …, N` (in that
order, page 1 first and processed before the rest are dispatched), and
returns page 1's docs, then page 1's featured docs, then the concatenation of
the docs of pages `2..N` — introducing no duplicates of its own beyond what
the responses contain. -/
theorem c6_pagination_completeness (api : RegionApi) (hN : 1 ≤ (api 1).pages) :
    requestsOf (regionTrace api 0) = List.range' 1 (api 1).pages ∧
    (regionTrace api 0).head? = some (FetchEvent.request 1) ∧
    fetchAllJobsForRegion api 0 =
      (api 1).docs ++ (api 1).featuredDocs.getD [] ++
        ((remainingPageNumbers (api 1).pages).map fun p => (api p).docs).flatten := by
  obtain ⟨m, hm⟩ : ∃ m, (api 1).pages = m + 1 :=
    ⟨(api 1).pages - 1, (Nat.succ_pred_eq_of_pos hN).symm⟩
  have hrange : List.range' 1 (api 1).pages = 1 :: List.range' 2 ((api 1).pages - 1) := by
    rw [hm]
    rw [List.range'_succ]
    simp
  by_cases h1 : (api 1).pages = 1
  · have hguard : (api 1).pages = 1 ∨ (0 < 0 ∧ 0 ≤
        ((api 1).docs ++ (api 1).featuredDocs.getD []).length) := Or.inl h1
    refine ⟨?_, ?_, ?_⟩
    · unfold regionTrace
      rw [if_pos (Or.inl h1), hrange, h1]
      rfl
    · unfold regionTrace
      rw [if_pos (Or.inl h1)]
      rfl
    · unfold fetchAllJobsForRegion
      rw [if_pos hguard, h1]
      show _ = (api 1).docs ++ (api 1).featuredDocs.getD [] ++ List.flatten []
      simp
  · have hguard : ¬ ((api 1).pages = 1 ∨ (0 < 0 ∧ 0 ≤
        ((api 1).docs ++ (api 1).featuredDocs.getD []).length)) := by
      rintro (h | ⟨h, _⟩)
      · exact h1 h
      · exact absurd h (by simp)
    have hguardT : ¬ ((api 1).pages = 1 ∨ (0 < 0 ∧ 0 ≤
        (api 1).docs.length + ((api 1).featuredDocs.getD []).length)) := by
      rintro (h | ⟨h, _⟩)
      · exact h1 h
      · exact absurd h (by simp)
    refine ⟨?_, ?_, ?_⟩
    · unfold regionTrace
      rw [if_neg hguardT]
      unfold requestsOf
      rw [List.filterMap_append, List.filterMap_append]
      show ([1] ++ _) ++ _ = _
      rw [List.filterMap_map]
      have hid : (fun e => match e with
          | FetchEvent.request p => some p
          | FetchEvent.append _ => none) ∘ FetchEvent.request = some := rfl
      rw [hid, List.filterMap_some]
      show [1] ++ remainingPageNumbers (api 1).pages ++
        requestsOf (regionTraceLoop 0 _ _) = _
      rw [requestsOf_regionTraceLoop, List.append_nil, hrange,
        remainingPageNumbers_eq_range']
      rfl
    · unfold regionTrace
      rw [if_neg hguardT]
      rfl
    · unfold fetchAllJobsForRegion
      rw [if_neg hguard, accumulatePages_zero]

/-- Witness for C6 at the concrete three-page region API. -/
theorem c6_pagination_completeness_witness :
    1 ≤ (exApi 1).pages ∧
    requestsOf (regionTrace exApi 0) = List.range' 1 (exApi 1).pages ∧
    (regionTrace exApi 0).head? = some (FetchEvent.request 1) ∧
    fetchAllJobsForRegion exApi 0 =
      (exApi 1).docs ++ (exApi 1).featuredDocs.getD [] ++
        ((remainingPageNumbers (exApi 1).pages).map fun p => (exApi p).docs).flatten :=
  ⟨by decide, c6_pagination_completeness exApi (by decide)⟩

/-- Splitting the inner merge loop over a concatenation: as long as the limit
was not already hit on entry, merging `xs ++ ys` first merges `xs` and then,
unless the limit was hit inside `xs`, continues with `ys`. -/
theorem mergeRegionJobs_append (limit : Nat) (xs ys : List JobListingBasic) :
    ∀ seen acc, ¬(0 < limit ∧ limit ≤ acc.length) →
      mergeRegionJobs limit seen acc (xs ++ ys) =
        (if 0 < limit ∧ limit ≤ (mergeRegionJobs limit seen acc xs).2.length
         then mergeRegionJobs limit seen acc xs
         else mergeRegionJobs limit (mergeRegionJobs limit seen acc xs).1
           (mergeRegionJobs limit seen acc xs).2 ys) := by
  induction xs with
  | nil =>
    intro seen acc h
    show mergeRegionJobs limit seen acc ys =
      (if 0 < limit ∧ limit ≤ acc.length then (seen, acc)
       else mergeRegionJobs limit seen acc ys)
    rw [if_neg h]
  | cons j rest ih =>
    intro seen acc h
    by_cases hc : seen.contains j.id
    · show mergeRegionJobs limit seen acc (j :: (rest ++ ys)) = _
      simp only [mergeRegionJobs, if_pos hc]
      exact ih seen acc h
    · by_cases hstop : 0 < limit ∧ limit ≤ (acc ++ [j]).length
      · have hrest : mergeRegionJobs limit seen acc (j :: rest) =
            (j.id :: seen, acc ++ [j]) := by
          simp only [mergeRegionJobs, if_neg hc, if_pos hstop]
        have hboth : mergeRegionJobs limit seen acc (j :: (rest ++ ys)) =
            (j.id :: seen, acc ++ [j]) := by
          simp only [mergeRegionJobs, if_neg hc, if_pos hstop]
        rw [show (j :: rest) ++ ys = j :: (rest ++ ys) from rfl, hboth, hrest, if_pos hstop]
      · have hrest : mergeRegionJobs limit seen acc (j :: rest) =
            mergeRegionJobs limit (j.id :: seen) (acc ++ [j]) rest := by
          simp only [mergeRegionJobs, if_neg hc, if_neg hstop]
        have hboth : mergeRegionJobs limit seen acc (j :: (rest ++ ys)) =
            mergeRegionJobs limit (j.id :: seen) (acc ++ [j]) (rest ++ ys) := by
          simp only [mergeRegionJobs, if_neg hc, if_neg hstop]
        rw [show (j :: rest) ++ ys = j :: (rest ++ ys) from rfl, hboth, hrest]
        exact ih (j.id :: seen) (acc ++ [j]) hstop

/-- The outer region-by-region merge equals the inner merge over the
flattened region results: the stop condition between regions is the same
check the inner loop performs after each push. -/
theorem mergeRegionResults_eq_flatten (limit : Nat) (rss : List (List JobListingBasic)) :
    ∀ seen acc, ¬(0 < limit ∧ limit ≤ acc.length) →
      mergeRegionResults limit seen acc rss =
        (mergeRegionJobs limit seen acc rss.flatten).2 := by
  induction rss with
  | nil =>
    intro seen acc _
    rfl
  | cons js rest ih =>
    intro seen acc h
    show (if 0 < limit ∧ limit ≤ (mergeRegionJobs limit seen acc js).2.length
        then (mergeRegionJobs limit seen acc js).2
        else mergeRegionResults limit (mergeRegionJobs limit seen acc js).1
          (mergeRegionJobs limit seen acc js).2 rest) = _
    rw [show (js :: rest).flatten = js ++ rest.flatten from rfl,
      mergeRegionJobs_append limit js rest.flatten seen acc h]
    by_cases hstop : 0 < limit ∧ limit ≤ (mergeRegionJobs limit seen acc js).2.length
    · rw [if_pos hstop, if_pos hstop]
    · rw [if_neg hstop, if_neg hstop]
      exact ih _ _ hstop

/-- Length of the inner merge result: starting strictly below a positive
limit, the final length is the limit capped count of starting length plus
the number of new distinct ids in the input. -/
theorem mergeRegionJobs_length (limit : Nat) (hL : 0 < limit) (l : List JobListingBasic) :
    ∀ seen acc, acc.length < limit →
      (mergeRegionJobs limit seen acc l).2.length =
        min limit (acc.length + countNew seen (idsOf l)) := by
  induction l with
  | nil =>
    intro seen acc h
    show acc.length = min limit (acc.length + 0)
    rw [Nat.add_zero, Nat.min_eq_right (Nat.le_of_lt h)]
  | cons j rest ih =>
    intro seen acc h
    have hids : idsOf (j :: rest) = j.id :: idsOf rest := rfl
    by_cases hc : seen.contains j.id
    · have hrest : mergeRegionJobs limit seen acc (j :: rest) =
          mergeRegionJobs limit seen acc rest := by
        simp only [mergeRegionJobs, if_pos hc]
      have hcn : countNew seen (idsOf (j :: rest)) = countNew seen (idsOf rest) := by
        rw [hids]
        simp only [countNew, if_pos hc]
      rw [hrest, hcn]
      exact ih seen acc h
    · have hcn : countNew seen (idsOf (j :: rest)) =
          1 + countNew (j.id :: seen) (idsOf rest) := by
        rw [hids]
        simp only [countNew, if_neg hc]
      have hlen : (acc ++ [j]).length = acc.length + 1 := by simp
      by_cases hstop : 0 < limit ∧ limit ≤ (acc ++ [j]).length
      · have hrest : mergeRegionJobs limit seen acc (j :: rest) =
            (j.id :: seen, acc ++ [j]) := by
          simp only [mergeRegionJobs, if_neg hc, if_pos hstop]
        rw [hrest, hcn, hlen]
        have h2 := hstop.2
        rw [hlen] at h2
        omega
      · have hrest : mergeRegionJobs limit seen acc (j :: rest) =
            mergeRegionJobs limit (j.id :: seen) (acc ++ [j]) rest := by
          simp only [mergeRegionJobs, if_neg hc, if_neg hstop]
        have hlt : (acc ++ [j]).length < limit := by
          rw [hlen]
          rcases Nat.lt_or_ge (acc.length + 1) limit with hx | hx
          · exact hx
          · exact absurd ⟨hL, by rw [hlen]; exact hx⟩ hstop
        rw [hrest, hcn, ih (j.id :: seen) (acc ++ [j]) hlt, hlen]
        omega

/-- The running distinct-new count equals the cardinality of the set of ids
in the input that are not yet seen. -/
theorem countNew_eq_card (l : List String) :
    ∀ seen, countNew seen l = ((l.filter fun i => !seen.contains i).toFinset).card := by
  induction l with
  | nil => intro seen; rfl
  | cons i rest ih =>
    intro seen
    by_cases hc : seen.contains i
    · have hstep : List.filter (fun x => !seen.contains x) (i :: rest) =
          List.filter (fun x => !seen.contains x) rest := by
        rw [List.filter_cons]
        simp only [hc, Bool.not_true]
        rw [if_neg Bool.false_ne_true]
      rw [show countNew seen (i :: rest) = countNew seen rest from by
        simp only [countNew, if_pos hc]]
      rw [ih seen, hstep]
    · have hcf : seen.contains i = false := by simpa using hc
      have hstep : List.filter (fun x => !seen.contains x) (i :: rest) =
          i :: List.filter (fun x => !seen.contains x) rest := by
        rw [List.filter_cons]
        simp only [hcf, Bool.not_false, if_true]
      rw [show countNew seen (i :: rest) = 1 + countNew (i :: seen) rest from by
        simp only [countNew, if_neg hc]]
      rw [ih (i :: seen), hstep]
      have hfilter : (rest.filter fun x => !(i :: seen).contains x) =
          (rest.filter fun x => !seen.contains x).filter fun x => decide (x ≠ i) := by
        rw [List.filter_filter]
        apply List.filter_congr
        intro x _
        show (!(i :: seen).contains x) = (decide (x ≠ i) && !seen.contains x)
        rw [List.contains_cons, Bool.not_or]
        by_cases hxi : x = i
        · subst hxi
          simp
        · have h1 : (x == i) = false := beq_eq_false_iff_ne.mpr hxi
          have h2 : decide (x ≠ i) = true := decide_eq_true hxi
          rw [h1, h2]
          simp
      rw [hfilter, List.toFinset_filter]
      rw [show (List.toFinset (i :: List.filter (fun x => !seen.contains x) rest)) =
        insert i (List.filter (fun x => !seen.contains x) rest).toFinset from
          List.toFinset_cons]
      set S := (rest.filter fun x => !seen.contains x).toFinset with hS
      have herase : Finset.filter (fun x => decide (x ≠ i) = true) S = S.erase i := by
        rw [show Finset.filter (fun x => decide (x ≠ i) = true) S =
            Finset.filter (fun x => x ≠ i) S from Finset.filter_congr (fun x _ => by simp)]
        exact Finset.filter_ne' S i
      rw [herase]
      have hins : insert i S = insert i (S.erase i) := by
        ext x
        simp only [Finset.mem_insert, Finset.mem_erase]
        constructor
        · rintro (rfl | hx)
          · exact Or.inl rfl
          · by_cases hxi : x = i
            · exact Or.inl hxi
            · exact Or.inr ⟨hxi, hx⟩
        · rintro (rfl | ⟨_, hx⟩)
          · exact Or.inl rfl
          · exact Or.inr hx
      rw [hins, Finset.card_insert_of_not_mem (Finset.not_mem_erase i S)]
      omega

/-- At an empty seen set the distinct-new count is the number of unique
ids. -/
theorem countNew_nil (l : List String) : countNew [] l = l.dedup.length := by
  rw [countNew_eq_card]
  have : (l.filter fun i => !List.contains [] i) = l := by
    apply List.filter_eq_self.mpr
    intro a _
    rfl
  rw [this, List.card_toFinset]

/-- Length of the aggregator output: exactly the limit capped number of
unique ids across the regions' full listings. -/
theorem fetchAllJobs_length (regions : List RegionCode) (api : RegionCode → RegionApi)
    (limit : Nat) (hL : 0 < limit) :
    (fetchAllJobs regions api limit).length = min limit (uniqueIdCount regions api) := by
  unfold fetchAllJobs
  have hentry : ¬(0 < limit ∧ limit ≤ ([] : List JobListingBasic).length) := by
    rintro ⟨_, hle⟩
    simp at hle
    omega
  rw [mergeRegionResults_eq_flatten limit _ [] [] hentry,
    mergeRegionJobs_length limit hL _ [] [] (by simpa using hL)]
  rw [show ([] : List JobListingBasic).length = 0 from rfl, Nat.zero_add, countNew_nil]
  rfl

/-- C4: for every region list and limit `L > 0`, `fetchAllJobs` returns
exactly `min(L, total number of unique job ids available across the
regions)` summaries; in particular the output length never exceeds `L`. -/
theorem c4_aggregator_limit_exact (regions : List RegionCode) (api : RegionCode → RegionApi)
    (limit : Nat) (hL : 0 < limit) :
    (fetchAllJobs regions api limit).length = min limit (uniqueIdCount regions api) ∧
    (fetchAllJobs regions api limit).length ≤ limit := by
  refine ⟨fetchAllJobs_length regions api limit hL, ?_⟩
  rw [fetchAllJobs_length regions api limit hL]
  exact Nat.min_le_left _ _

/-- Witness for C4: two regions sharing `job-1`, 15 unique ids available,
limit 4. -/
theorem c4_aggregator_limit_exact_witness :
    0 < 4 ∧
    ((fetchAllJobs [RegionCode.FI, RegionCode.SE] exApiTable 4).length =
        min 4 (uniqueIdCount [RegionCode.FI, RegionCode.SE] exApiTable) ∧
      (fetchAllJobs [RegionCode.FI, RegionCode.SE] exApiTable 4).length ≤ 4) :=
  ⟨by decide, c4_aggregator_limit_exact [RegionCode.FI, RegionCode.SE] exApiTable 4 (by decide)⟩

/-- The inner accumulation of `fetchAllJobsForRegion` only ever cuts off at a
page boundary: the result extends the page-1 block by the concatenation of a
prefix of the later pages. -/
theorem accumulatePages_take (limit : Nat) (pages : List (List JobListingBasic)) :
    ∀ acc, ∃ k, accumulatePages limit acc pages = acc ++ ((pages.take k).flatten) := by
  induction pages with
  | nil =>
    intro acc
    exact ⟨0, by simp [accumulatePages]⟩
  | cons d rest ih =>
    intro acc
    by_cases hstop : 0 < limit ∧ limit ≤ (acc ++ d).length
    · refine ⟨1, ?_⟩
      show (if 0 < limit ∧ limit ≤ (acc ++ d).length then acc ++ d
        else accumulatePages limit (acc ++ d) rest) = _
      rw [if_pos hstop]
      simp
    · obtain ⟨k, hk⟩ := ih (acc ++ d)
      refine ⟨k + 1, ?_⟩
      show (if 0 < limit ∧ limit ≤ (acc ++ d).length then acc ++ d
        else accumulatePages limit (acc ++ d) rest) = _
      rw [if_neg hstop, hk]
      simp

/-- C10: the per-region limit of `fetchAllJobsForRegion` is checked only at
page boundaries, after appending a whole page (and, on page 1, all featured
docs): the result is always the full page-1 block followed by the
concatenation of a whole-page prefix of the later pages, so it can be
strictly longer than the limit (at the example API with limit 3 it has
length 7); exact truncation to the limit happens only in the aggregator
`fetchAllJobs`, whose output length never exceeds the limit. -/
theorem c10_region_limit_is_cutoff_not_truncation (api : RegionApi) (limit : Nat)
    (hL : 0 < limit) :
    (∃ k, fetchAllJobsForRegion api limit =
        (api 1).docs ++ (api 1).featuredDocs.getD [] ++
          ((((remainingPageNumbers (api 1).pages).map fun p => (api p).docs).take k).flatten)) ∧
    ((fetchAllJobsForRegion exApi 3).length = 7 ∧ 3 < 7) ∧
    (∀ regions apiT, (fetchAllJobs regions apiT limit).length ≤ limit) := by
  refine ⟨?_, ⟨by decide, by decide⟩, ?_⟩
  · unfold fetchAllJobsForRegion
    by_cases hg : (api 1).pages = 1 ∨
        (0 < limit ∧ limit ≤ ((api 1).docs ++ (api 1).featuredDocs.getD []).length)
    · refine ⟨0, ?_⟩
      rw [if_pos hg]
      simp
    · rw [if_neg hg]
      exact accumulatePages_take limit _ _
  · intro regions apiT
    rw [fetchAllJobs_length regions apiT limit hL]
    exact Nat.min_le_left _ _

/-- Witness for C10 at the concrete three-page region API and limit 3. -/
theorem c10_region_limit_is_cutoff_not_truncation_witness :
    0 < 3 ∧
    ((∃ k, fetchAllJobsForRegion exApi 3 =
        (exApi 1).docs ++ (exApi 1).featuredDocs.getD [] ++
          ((((remainingPageNumbers (exApi 1).pages).map fun p => (exApi p).docs).take k).flatten)) ∧
      ((fetchAllJobsForRegion exApi 3).length = 7 ∧ 3 < 7) ∧
      (∀ regions apiT, (fetchAllJobs regions apiT 3).length ≤ 3)) :=
  ⟨by decide, c10_region_limit_is_cutoff_not_truncation exApi 3 (by decide)⟩

/-- Seen-set weakening for `contains`. -/
theorem contains_false_of_cons_false {a b : String} {l : List String}
    (h : (a :: l).contains b = false) : l.contains b = false := by
  rw [List.contains_cons] at h
  exact (Bool.or_eq_false_iff.mp h).2

/-- With no limit, the inner merge extends the accumulator by a tail of jobs
whose ids were all unseen on entry. -/
theorem mergeRegionJobs_zero_ext (l : List JobListingBasic) :
    ∀ seen acc, ∃ tail, (mergeRegionJobs 0 seen acc l).2 = acc ++ tail ∧
      ∀ j ∈ tail, seen.contains j.id = false := by
  induction l with
  | nil =>
    intro seen acc
    exact ⟨[], by simp [mergeRegionJobs], by simp⟩
  | cons j rest ih =>
    intro seen acc
    by_cases hc : seen.contains j.id
    · have hred : mergeRegionJobs 0 seen acc (j :: rest) =
          mergeRegionJobs 0 seen acc rest := by
        simp only [mergeRegionJobs, if_pos hc]
      rw [hred]
      exact ih seen acc
    · have hcf : seen.contains j.id = false := by simpa using hc
      have hred : mergeRegionJobs 0 seen acc (j :: rest) =
          mergeRegionJobs 0 (j.id :: seen) (acc ++ [j]) rest := by
        simp only [mergeRegionJobs, if_neg hc]
        rw [if_neg (by simp)]
      obtain ⟨t, ht, hp⟩ := ih (j.id :: seen) (acc ++ [j])
      refine ⟨j :: t, ?_, ?_⟩
      · rw [hred, ht]
        simp
      · intro x hx
        rcases List.mem_cons.mp hx with rfl | hx
        · exact hcf
        · exact contains_false_of_cons_false (hp x hx)

/-- With no limit, the kept occurrence for an unseen id is the first
occurrence in the input order. -/
theorem mergeRegionJobs_zero_find (l : List JobListingBasic) :
    ∀ seen acc (i : String), seen.contains i = false →
      (∀ j ∈ acc, seen.contains j.id = true) →
      ((mergeRegionJobs 0 seen acc l).2.find? fun j => j.id == i) =
        (l.find? fun j => j.id == i) := by
  induction l with
  | nil =>
    intro seen acc i hseen hacc
    show (acc.find? fun j => j.id == i) = none
    apply List.find?_eq_none.mpr
    intro j hj hbeq
    have hmem := hacc j hj
    rw [eq_of_beq hbeq] at hmem
    rw [hseen] at hmem
    exact Bool.noConfusion hmem
  | cons j rest ih =>
    intro seen acc i hseen hacc
    by_cases hc : seen.contains j.id
    · have hne : (j.id == i) = false := by
        apply beq_eq_false_iff_ne.mpr
        intro he
        rw [he] at hc
        rw [hseen] at hc
        exact Bool.noConfusion hc
      have hred : mergeRegionJobs 0 seen acc (j :: rest) =
          mergeRegionJobs 0 seen acc rest := by
        simp only [mergeRegionJobs, if_pos hc]
      rw [hred, ih seen acc i hseen hacc,
        List.find?_cons_of_neg _ (by rw [hne]; exact Bool.false_ne_true)]
    · have hcf : seen.contains j.id = false := by simpa using hc
      have hred : mergeRegionJobs 0 seen acc (j :: rest) =
          mergeRegionJobs 0 (j.id :: seen) (acc ++ [j]) rest := by
        simp only [mergeRegionJobs, if_neg hc]
        rw [if_neg (by simp)]
      by_cases hji : j.id = i
      · have hbeq : (j.id == i) = true := beq_iff_eq.mpr hji
        obtain ⟨t, ht, hp⟩ := mergeRegionJobs_zero_ext rest (j.id :: seen) (acc ++ [j])
        rw [hred, ht]
        have haccnone : (acc.find? fun x => x.id == i) = none := by
          apply List.find?_eq_none.mpr
          intro x hx hbx
          have hmem := hacc x hx
          rw [eq_of_beq hbx] at hmem
          rw [hseen] at hmem
          exact Bool.noConfusion hmem
        have hLj : List.find? (fun x => x.id == i) (j :: t) = some j := by
          simp only [List.find?_cons, hbeq]
        have hRj : List.find? (fun x => x.id == i) (j :: rest) = some j := by
          simp only [List.find?_cons, hbeq]
        rw [show acc ++ [j] ++ t = acc ++ (j :: t) from by simp,
          List.find?_append, haccnone, Option.none_or, hLj, hRj]
      · have hne : (j.id == i) = false := beq_eq_false_iff_ne.mpr hji
        have hseen' : (j.id :: seen).contains i = false := by
          rw [List.contains_cons]
          rw [show (i == j.id) = false from beq_eq_false_iff_ne.mpr fun h => hji h.symm, hseen]
          rfl
        have hacc' : ∀ x ∈ acc ++ [j], (j.id :: seen).contains x.id = true := by
          intro x hx
          rcases List.mem_append.mp hx with hx | hx
          · rw [List.contains_cons, hacc x hx, Bool.or_true]
          · rcases List.mem_singleton.mp hx with rfl
            rw [List.contains_cons, beq_self_eq_true, Bool.true_or]
        rw [hred, ih (j.id :: seen) (acc ++ [j]) i hseen' hacc',
          List.find?_cons_of_neg _ (by rw [hne]; exact Bool.false_ne_true)]

/-- With no limit, the merged accumulator keeps at most one job per id. -/
theorem mergeRegionJobs_zero_nodup (l : List JobListingBasic) :
    ∀ seen acc, (idsOf acc).Nodup → (∀ j ∈ acc, seen.contains j.id = true) →
      (idsOf (mergeRegionJobs 0 seen acc l).2).Nodup := by
  induction l with
  | nil =>
    intro seen acc hnd _
    exact hnd
  | cons j rest ih =>
    intro seen acc hnd hacc
    by_cases hc : seen.contains j.id
    · have hred : mergeRegionJobs 0 seen acc (j :: rest) =
          mergeRegionJobs 0 seen acc rest := by
        simp only [mergeRegionJobs, if_pos hc]
      rw [hred]
      exact ih seen acc hnd hacc
    · have hcf : seen.contains j.id = false := by simpa using hc
      have hred : mergeRegionJobs 0 seen acc (j :: rest) =
          mergeRegionJobs 0 (j.id :: seen) (acc ++ [j]) rest := by
        simp only [mergeRegionJobs, if_neg hc]
        rw [if_neg (by simp)]
      rw [hred]
      apply ih (j.id :: seen) (acc ++ [j])
      · have hids : idsOf (acc ++ [j]) = idsOf acc ++ [j.id] := by
          simp [idsOf]
        rw [hids]
        rw [List.nodup_append]
        refine ⟨hnd, List.nodup_singleton _, ?_⟩
        intro a ha hb
        rcases List.mem_singleton.mp hb with rfl
        obtain ⟨x, hx, hxi⟩ := List.mem_map.mp ha
        have hmem := hacc x hx
        rw [hxi] at hmem
        rw [hcf] at hmem
        exact Bool.noConfusion hmem
      · intro x hx
        rcases List.mem_append.mp hx with hx | hx
        · rw [List.contains_cons, hacc x hx, Bool.or_true]
        · rcases List.mem_singleton.mp hx with rfl
          rw [List.contains_cons, beq_self_eq_true, Bool.true_or]

/-- C5: the aggregator's output contains each job id shared between two
fetched regions exactly once, and the kept occurrence (the whole summary
value) is the first one in the deterministic region-then-page-then-in-page
merge order; `Promise.all` delivers region results in region order, so this
is independent of which region's concurrent fetch completed first. -/
theorem c5_cross_region_dedup (regions : List RegionCode) (api : RegionCode → RegionApi)
    (r1 r2 : RegionCode) (i : String)
    (h1 : r1 ∈ regions) (_h2 : r2 ∈ regions)
    (hs1 : i ∈ idsOf (fetchAllJobsForRegion (api r1) 0))
    (_hs2 : i ∈ idsOf (fetchAllJobsForRegion (api r2) 0)) :
    List.count i (idsOf (fetchAllJobs regions api 0)) = 1 ∧
    ((fetchAllJobs regions api 0).find? fun j => j.id == i) =
      ((mergeOrder regions api).find? fun j => j.id == i) := by
  have hflat : fetchAllJobs regions api 0 =
      (mergeRegionJobs 0 [] [] (mergeOrder regions api)).2 := by
    unfold fetchAllJobs
    rw [mergeRegionResults_eq_flatten 0 _ [] [] (by simp)]
    rfl
  have hfind := mergeRegionJobs_zero_find (mergeOrder regions api) [] [] i rfl (by simp)
  have hmem : ∃ x ∈ mergeOrder regions api, (x.id == i) = true := by
    obtain ⟨j, hj, hji⟩ := List.mem_map.mp hs1
    refine ⟨j, ?_, beq_iff_eq.mpr hji⟩
    unfold mergeOrder
    exact List.mem_flatten.mpr
      ⟨fetchAllJobsForRegion (api r1) 0, List.mem_map_of_mem _ h1, hj⟩
  refine ⟨?_, by rw [hflat]; exact hfind⟩
  have hsome : ((mergeOrder regions api).find? fun j => j.id == i).isSome := by
    rw [List.find?_isSome]
    obtain ⟨x, hx, hpx⟩ := hmem
    exact ⟨x, hx, hpx⟩
  obtain ⟨jf, hjf⟩ := Option.isSome_iff_exists.mp hsome
  have hres : ((fetchAllJobs regions api 0).find? fun j => j.id == i) = some jf := by
    rw [hflat, hfind, hjf]
  have hjmem : jf ∈ fetchAllJobs regions api 0 := List.mem_of_find?_eq_some hres
  have hpj := List.find?_some hres
  have hjid : jf.id = i := eq_of_beq hpj
  have himem : i ∈ idsOf (fetchAllJobs regions api 0) := by
    unfold idsOf
    exact List.mem_map.mpr ⟨jf, hjmem, hjid⟩
  have hnodup : (idsOf (fetchAllJobs regions api 0)).Nodup := by
    rw [hflat]
    exact mergeRegionJobs_zero_nodup (mergeOrder regions api) [] []
      (by simp [idsOf]) (by simp)
  exact List.count_eq_one_of_mem hnodup himem

/-- Witness for C5: regions `FI` and `SE` of the example table share
`job-1`. -/
theorem c5_cross_region_dedup_witness :
    (RegionCode.FI ∈ [RegionCode.FI, RegionCode.SE] ∧
      RegionCode.SE ∈ [RegionCode.FI, RegionCode.SE] ∧
      "job-1" ∈ idsOf (fetchAllJobsForRegion (exApiTable RegionCode.FI) 0) ∧
      "job-1" ∈ idsOf (fetchAllJobsForRegion (exApiTable RegionCode.SE) 0)) ∧
    List.count "job-1" (idsOf (fetchAllJobs [RegionCode.FI, RegionCode.SE] exApiTable 0)) = 1 ∧
    ((fetchAllJobs [RegionCode.FI, RegionCode.SE] exApiTable 0).find? fun j => j.id == "job-1") =
      ((mergeOrder [RegionCode.FI, RegionCode.SE] exApiTable).find? fun j => j.id == "job-1") :=
  ⟨⟨by decide, by decide, by decide, by decide⟩,
   c5_cross_region_dedup [RegionCode.FI, RegionCode.SE] exApiTable
     RegionCode.FI RegionCode.SE "job-1" (by decide) (by decide) (by decide) (by decide)⟩

/-- Issues of any declared field survive into the object's accumulated issue
list, with the field name prepended to the path. -/
theorem issue_mem_runObjectChecks {checks : List FieldCheck} {fields : List (String × JVal)}
    {name : String} {chk : Option JVal → List Issue} {iss : Issue}
    (hc : (name, chk) ∈ checks) (hi : iss ∈ chk (lookupField fields name)) :
    (⟨name :: iss.path, iss.message⟩ : Issue) ∈ runObjectChecks checks fields := by
  unfold runObjectChecks
  rw [List.mem_flatMap]
  exact ⟨(name, chk), hc, List.mem_map.mpr ⟨iss, hi, rfl⟩⟩

/-- C9: on a candidate violating three independent constraints — empty
`title`, non-boolean `isRemote`, malformed `url` — schema validation fails
and its error list contains one rendered entry for each of the three
violated field paths, not only the first encountered. -/
theorem c9_validation_lists_all_violations (fields : List (String × JVal)) (w : JVal) (u : String)
    (htitle : lookupField fields "title" = some (JVal.jstr ""))
    (hrem : lookupField fields "isRemote" = some w)
    (hwb : ∀ b, w ≠ JVal.jbool b)
    (hurl : lookupField fields "url" = some (JVal.jstr u))
    (hu : isHttpUrl u = false) :
    (validateJobOutputSchema (JVal.jobj fields)).isValid = false ∧
    "title: String must contain at least 1 character(s)" ∈
      (validateJobOutputSchema (JVal.jobj fields)).errors ∧
    "isRemote: Expected boolean" ∈ (validateJobOutputSchema (JVal.jobj fields)).errors ∧
    "url: Invalid url" ∈ (validateJobOutputSchema (JVal.jobj fields)).errors := by
  have hT : (⟨["title"], "String must contain at least 1 character(s)"⟩ : Issue) ∈
      jobOutputSchemaIssues (JVal.jobj fields) := by
    have hcmem : (("title", zString 1) : FieldCheck) ∈ jobOutputChecks := by
      unfold jobOutputChecks
      exact List.mem_cons_of_mem _ (List.mem_cons_of_mem _ (List.mem_cons_of_mem _
        (List.mem_cons_self _ _)))
    have hiss : (⟨[], "String must contain at least 1 character(s)"⟩ : Issue) ∈
        zString 1 (lookupField fields "title") := by
      rw [htitle]
      decide
    exact issue_mem_runObjectChecks hcmem hiss
  have hR : (⟨["isRemote"], "Expected boolean"⟩ : Issue) ∈
      jobOutputSchemaIssues (JVal.jobj fields) := by
    have hcmem : (("isRemote", zBoolean) : FieldCheck) ∈ jobOutputChecks := by
      unfold jobOutputChecks
      exact List.mem_cons_of_mem _ (List.mem_cons_of_mem _ (List.mem_cons_of_mem _
        (List.mem_cons_of_mem _ (List.mem_cons_of_mem _ (List.mem_cons_of_mem _
        (List.mem_cons_of_mem _ (List.mem_cons_self _ _)))))))
    have hiss : (⟨[], "Expected boolean"⟩ : Issue) ∈
        zBoolean (lookupField fields "isRemote") := by
      rw [hrem]
      cases w with
      | jbool b => exact absurd rfl (hwb b)
      | jnull => exact List.mem_singleton.mpr rfl
      | jnum n => exact List.mem_singleton.mpr rfl
      | jstr s => exact List.mem_singleton.mpr rfl
      | jarr elems => exact List.mem_singleton.mpr rfl
      | jobj fs => exact List.mem_singleton.mpr rfl
    exact issue_mem_runObjectChecks hcmem hiss
  have hU : (⟨["url"], "Invalid url"⟩ : Issue) ∈
      jobOutputSchemaIssues (JVal.jobj fields) := by
    have hcmem : (("url", zUrl) : FieldCheck) ∈ jobOutputChecks := by
      unfold jobOutputChecks
      exact List.mem_cons_of_mem _ (List.mem_cons_of_mem _ (List.mem_cons_self _ _))
    have hiss : (⟨[], "Invalid url"⟩ : Issue) ∈ zUrl (lookupField fields "url") := by
      rw [hurl]
      show (⟨[], "Invalid url"⟩ : Issue) ∈
        (if isHttpUrl u = true then [] else [⟨[], "Invalid url"⟩])
      rw [hu, if_neg Bool.false_ne_true]
      exact List.mem_singleton.mpr rfl
    exact issue_mem_runObjectChecks hcmem hiss
  have hne : (jobOutputSchemaIssues (JVal.jobj fields)).isEmpty = false := by
    cases hE : (jobOutputSchemaIssues (JVal.jobj fields)).isEmpty with
    | false => rfl
    | true =>
      rw [List.isEmpty_iff] at hE
      rw [hE] at hT
      exact absurd hT (List.not_mem_nil _)
  have hval : validateJobOutputSchema (JVal.jobj fields) =
      ⟨false, (jobOutputSchemaIssues (JVal.jobj fields)).map fun iss =>
        if String.intercalate "." iss.path = "" then iss.message
        else String.intercalate "." iss.path ++ ": " ++ iss.message⟩ := by
    show (if (jobOutputSchemaIssues (JVal.jobj fields)).isEmpty then
        (⟨true, []⟩ : ValidationResult)
      else ⟨false, (jobOutputSchemaIssues (JVal.jobj fields)).map fun iss =>
        if String.intercalate "." iss.path = "" then iss.message
        else String.intercalate "." iss.path ++ ": " ++ iss.message⟩) = _
    rw [hne, if_neg Bool.false_ne_true]
  rw [hval]
  refine ⟨rfl, ?_, ?_, ?_⟩
  · exact List.mem_map.mpr ⟨_, hT, by decide⟩
  · exact List.mem_map.mpr ⟨_, hR, by decide⟩
  · exact List.mem_map.mpr ⟨_, hU, by decide⟩

/-- Concrete candidate for the C9 witness: the otherwise-valid test record
with an empty `title`, a numeric `isRemote` and a malformed `url`. -/
def exBadCandidate : List (String × JVal) :=
  [("id", JVal.jstr "123abc"), ("key", JVal.jstr "test-job-key"),
   ("url", JVal.jstr "not-a-url"), ("title", JVal.jstr ""),
   ("description", JVal.jstr "A detailed description."),
   ("company", JVal.jobj
     [("id", JVal.jstr "company123"), ("key", JVal.jstr "test-company"),
      ("name", JVal.jstr "Test Company"), ("website", JVal.jstr "https://testcompany.com"),
      ("numberOfEmployees", JVal.jstr "50-100"), ("founded", JVal.jstr "2020")]),
   ("isRemote", JVal.jnum 1), ("salary", JVal.jstr "Competitive"),
   ("equity", JVal.jstr "To be offered"), ("jobRole", JVal.jstr "engineering"),
   ("jobPositionTypes", JVal.jarr [JVal.jstr "Full-time"]),
   ("views", JVal.jobj [("week", JVal.jnum 5), ("total", JVal.jnum 100)]),
   ("createdAt", JVal.jstr "2024-01-15T10:00:00.000Z"),
   ("publishedAt", JVal.jstr "2024-01-15T10:00:00.000Z"),
   ("scrapedAt", JVal.jstr "2024-01-20T15:30:00.000Z")]

/-- Witness for C9 at the concrete three-violation candidate. -/
theorem c9_validation_lists_all_violations_witness :
    (validateJobOutputSchema (JVal.jobj exBadCandidate)).isValid = false ∧
    "title: String must contain at least 1 character(s)" ∈
      (validateJobOutputSchema (JVal.jobj exBadCandidate)).errors ∧
    "isRemote: Expected boolean" ∈ (validateJobOutputSchema (JVal.jobj exBadCandidate)).errors ∧
    "url: Invalid url" ∈ (validateJobOutputSchema (JVal.jobj exBadCandidate)).errors :=
  c9_validation_lists_all_violations exBadCandidate (JVal.jnum 1) "not-a-url"
    rfl rfl (fun b h => JVal.noConfusion h) rfl (by decide)

end TheHub
